import Mathlib

/-!
Shallow embedding of the ZRLE decoder (`src/zrle.rs`) and of the QEMU-quirk
behaviour of the SDL client host (`src/bin/client.rs`) of the rust-vnc
repository, together with theorems settling the specification claims.

Machine integers are modelled as `Nat` (all values involved are bytes or
`u16`/`u32` quantities small enough that no wrap-around is reachable in the
modelled paths; the one place the source computes a `u32` — the pixel mask —
is reduced `% 2 ^ 32` explicitly).  Rust `Result` values, `Err` propagation
through `try!`, and panics (out-of-bounds indexing/slicing, `unwrap` of an
empty `Option`, failed `assert!`) are modelled by the three-valued `Res`.

zlib inflation is performed by the external `flate2` crate, which is not part
of this repository; the `ZlibReader` is therefore modelled as a pass-through
reader: the byte list it holds stands for the (inflated content of the)
per-message compressed slice, with the same consumed/leftover accounting as
the source (`into_inner` succeeds exactly when the slice was fully drained).
-/

set_option maxHeartbeats 2000000

namespace Vnc

/-- Errors of the vnc crate as seen by the ZRLE decoder: `Error::Unexpected`
protocol violations, and I/O-level failures (`UnexpectedEof`, `InvalidData`)
wrapped into `Error::Io` by `try!`. -/
inductive VncError where
  | ioError (msg : String)
  | unexpected (msg : String)
deriving DecidableEq

/-- Outcome of running a piece of Rust code: an `Ok` value, a propagated
`Err`, or a panic (out-of-bounds index or slice, `unwrap` of `None`,
failed `assert!`). -/
inductive Res (α : Type) where
  | ok : α → Res α
  | err : VncError → Res α
  | panicked : Res α
deriving DecidableEq

/-- The `flate2::Decompress` inflate context.  Inflation is external to this
repository and modelled as a pass-through, so the context itself carries no
state here; what the claims track is its ownership (the nullable slot of the
`Decoder`). -/
inductive Decompress where
  | mk
deriving DecidableEq

/-- `ZlibReader<'a>`: owns the taken decompressor and the remaining
per-message input slice (modelled pass-through, see the file comment). -/
structure ZlibReader where
  decompressor : Decompress
  input : List Nat
deriving DecidableEq

/-- `ZlibReader::into_inner`: recovers the decompressor only when the
per-message input slice was fully consumed. -/
def ZlibReader.intoInner (self : ZlibReader) : Res Decompress :=
  if self.input.length = 0 then .ok self.decompressor
  else .err (.unexpected "leftover ZRLE byte data")

/-- `BitReader<T>` instantiated at `T = ZlibReader`: MSB-first bit reads out
of `buffer`; `position = 8` means no partially consumed byte. -/
structure BitReader where
  reader : ZlibReader
  buffer : Nat
  position : Nat
deriving DecidableEq

/-- `BitReader::new`. -/
def BitReader.new (reader : ZlibReader) : BitReader :=
  ⟨reader, 0, 8⟩

/-- `BitReader::into_inner`: recovers the inner reader only when no byte is
partially consumed. -/
def BitReader.intoInner (self : BitReader) : Res ZlibReader :=
  if self.position = 8 then .ok self.reader
  else .err (.unexpected "leftover ZRLE bit data")

/-- `BitReader::read_bits`.  The `assert!(count > 0 && count <= 8)` is the
outer guard (panic when violated); when the current byte is exhausted a fresh
byte is pulled from the inner reader; a request straddling the byte boundary
is an `InvalidData` error.  The mask `(1 << count) - 1` is computed in `u8`,
so at `count = 8` the shift overflows: a release build masks the shift amount
(`count % 8`), giving mask `0` (a debug build would panic there instead); the
model follows the release semantics, matching the `u32` wrap-around used for
the pixel mask.  The decoder itself only ever requests 1, 2, 4 or 7 bits,
where both builds agree with the plain `2 ^ count - 1` mask. -/
def BitReader.readBits (count : Nat) (self : BitReader) : Res (Nat × BitReader) :=
  if 0 < count ∧ count ≤ 8 then
    match
      (if self.position = 8 then
        match self.reader.input with
        | [] => Res.err (.ioError "UnexpectedEof")
        | b :: rest => Res.ok (⟨⟨self.reader.decompressor, rest⟩, b, 0⟩ : BitReader)
      else Res.ok self) with
    | .ok s =>
      if s.position + count ≤ 8 then
        .ok ((s.buffer >>> (8 - (count + s.position))) &&& ((1 <<< (count % 8)) - 1),
             ⟨s.reader, s.buffer, s.position + count⟩)
      else .err (.ioError "unaligned ZRLE bit read")
    | .err e => .err e
    | .panicked => .panicked
  else .panicked

/-- `BitReader::read_bit`. -/
def BitReader.readBit (self : BitReader) : Res (Bool × BitReader) :=
  match BitReader.readBits 1 self with
  | .ok (v, r) => .ok (v != 0, r)
  | .err e => .err e
  | .panicked => .panicked

/-- `BitReader::align`. -/
def BitReader.align (self : BitReader) : BitReader :=
  ⟨self.reader, self.buffer, 8⟩

/-- `Read::read_exact` through the `BitReader`'s `Read` impl, which forwards
to the zlib stream only when byte-aligned (otherwise `InvalidData`).  An
empty request performs no read. -/
def BitReader.readExact (n : Nat) (self : BitReader) : Res (List Nat × BitReader) :=
  if n = 0 then .ok ([], self)
  else if self.position = 8 then
    if n ≤ self.reader.input.length then
      .ok (self.reader.input.take n,
           ⟨⟨self.reader.decompressor, self.reader.input.drop n⟩, self.buffer, self.position⟩)
    else .err (.ioError "UnexpectedEof")
  else .err (.ioError "unaligned ZRLE byte read")

/-- `ReadBytesExt::read_u8` through the `BitReader`'s `Read` impl. -/
def BitReader.readU8 (self : BitReader) : Res (Nat × BitReader) :=
  if self.position = 8 then
    match self.reader.input with
    | [] => .err (.ioError "UnexpectedEof")
    | b :: rest => .ok (b, ⟨⟨self.reader.decompressor, rest⟩, self.buffer, self.position⟩)
  else .err (.ioError "unaligned ZRLE byte read")

/-- The inner helper `read_pixel` of `Decoder::decode`:
`entry = [0; 4]; reader.read_exact(&mut entry[if pad { 1 } else { 0 }..bpp])`.
A slice whose start exceeds its end or whose end exceeds 4 panics. -/
def readPixel (pad : Bool) (bpp : Nat) (r : BitReader) : Res (List Nat × BitReader) :=
  if (if pad then 1 else 0) ≤ bpp ∧ bpp ≤ 4 then
    match BitReader.readExact (bpp - (if pad then 1 else 0)) r with
    | .ok (bytes, r') =>
      .ok (List.replicate (if pad then 1 else 0) 0 ++ bytes ++ List.replicate (4 - bpp) 0, r')
    | .err e => .err e
    | .panicked => .panicked
  else .panicked

/-- The byte-consuming loop of `read_run_length`, phrased over the raw byte
list: consumes a maximal prefix of `255`s plus the terminating byte and
returns the sum of the consumed bytes together with the rest of the list. -/
def runLengthParts : List Nat → Res (Nat × List Nat)
  | [] => .err (.ioError "UnexpectedEof")
  | b :: rest =>
    if b = 255 then
      match runLengthParts rest with
      | .ok (s, rest') => .ok (b + s, rest')
      | .err e => .err e
      | .panicked => .panicked
    else .ok (b, rest)

/-- The inner helper `read_run_length` of `Decoder::decode`: `1 +` the sum of
the consumed bytes.  All its `read_u8` calls go through the `BitReader` view,
whose alignment requirement is unchanged by byte reads, so it is checked once
up front. -/
def readRunLength (r : BitReader) : Res (Nat × BitReader) :=
  if r.position = 8 then
    match runLengthParts r.reader.input with
    | .ok (s, rest) => .ok (1 + s, ⟨⟨r.reader.decompressor, rest⟩, r.buffer, r.position⟩)
    | .err e => .err e
    | .panicked => .panicked
  else .err (.ioError "unaligned ZRLE byte read")

/-- `pixels.extend_from_slice(&pixel[0..bpp])`: panics when `bpp` exceeds the
pixel slice's length. -/
def extendSlice (acc pixel : List Nat) (bpp : Nat) : Res (List Nat) :=
  if bpp ≤ pixel.length then .ok (acc ++ pixel.take bpp) else .panicked

/-- `for _ in 0..n { pixels.extend_from_slice(&pixel[0..bpp]) }`. -/
def pixelRun (pixel : List Nat) (bpp : Nat) (n : Nat) (acc : List Nat) : Res (List Nat) :=
  match n with
  | 0 => .ok acc
  | m + 1 =>
    match extendSlice acc pixel bpp with
    | .ok acc' => pixelRun pixel bpp m acc'
    | .err e => .err e
    | .panicked => .panicked

/-- `for _ in 0..n { pixels.extend_from_slice(&palette[index][0..bpp]) }`:
the palette indexing is unchecked in the source, so an out-of-range index
panics on the first iteration. -/
def paletteRun (palette : List (List Nat)) (index bpp : Nat) (n : Nat) (acc : List Nat) :
    Res (List Nat) :=
  match n with
  | 0 => .ok acc
  | m + 1 =>
    match palette[index]? with
    | some pixel =>
      match extendSlice acc pixel bpp with
      | .ok acc' => paletteRun palette index bpp m acc'
      | .err e => .err e
      | .panicked => .panicked
    | none => .panicked

/-- The `(false, 0)` raw-pixels arm: `width * height` cpixels. -/
def rawPixelsLoop (pad : Bool) (cbpp bpp : Nat) (n : Nat) (r : BitReader) (acc : List Nat) :
    Res (List Nat × BitReader) :=
  match n with
  | 0 => .ok (acc, r)
  | m + 1 =>
    match readPixel pad cbpp r with
    | .ok (pixel, r') =>
      match extendSlice acc pixel bpp with
      | .ok acc' => rawPixelsLoop pad cbpp bpp m r' acc'
      | .err e => .err e
      | .panicked => .panicked
    | .err e => .err e
    | .panicked => .panicked

/-- One row of a packed-palette tile: `width` bit-packed palette indices. -/
def packedRow (bitsPerIndex : Nat) (palette : List (List Nat)) (bpp : Nat) (w : Nat)
    (r : BitReader) (acc : List Nat) : Res (List Nat × BitReader) :=
  match w with
  | 0 => .ok (acc, r)
  | m + 1 =>
    match BitReader.readBits bitsPerIndex r with
    | .ok (index, r') =>
      match paletteRun palette index bpp 1 acc with
      | .ok acc' => packedRow bitsPerIndex palette bpp m r' acc'
      | .err e => .err e
      | .panicked => .panicked
    | .err e => .err e
    | .panicked => .panicked

/-- The packed-palette arm: `height` rows, each followed by `reader.align()`. -/
def packedRows (bitsPerIndex : Nat) (palette : List (List Nat)) (bpp : Nat) (w h : Nat)
    (r : BitReader) (acc : List Nat) : Res (List Nat × BitReader) :=
  match h with
  | 0 => .ok (acc, r)
  | m + 1 =>
    match packedRow bitsPerIndex palette bpp w r acc with
    | .ok (acc', r') => packedRows bitsPerIndex palette bpp w m (BitReader.align r') acc'
    | .err e => .err e
    | .panicked => .panicked

/-- The `(true, 0)` raw-RLE arm: `(cpixel, run length)` pairs until the tile
is full.  Terminates because every run length is `1 + sum`, hence positive. -/
def rawRleLoop (pad : Bool) (cbpp bpp : Nat) (remaining : Nat) (r : BitReader)
    (acc : List Nat) : Res (List Nat × BitReader) :=
  if h : 0 < remaining then
    match readPixel pad cbpp r with
    | .ok (pixel, r1) =>
      match hrl : readRunLength r1 with
      | .ok (runLength, r2) =>
        match pixelRun pixel bpp runLength acc with
        | .ok acc' => rawRleLoop pad cbpp bpp (remaining - runLength) r2 acc'
        | .err e => .err e
        | .panicked => .panicked
      | .err e => .err e
      | .panicked => .panicked
    | .err e => .err e
    | .panicked => .panicked
  else .ok (acc, r)
termination_by remaining
decreasing_by
  have hpos : 1 ≤ runLength := by
    unfold readRunLength at hrl
    split at hrl
    · split at hrl
      · cases hrl; omega
      · cases hrl
      · cases hrl
    · cases hrl
  omega

/-- The `(true, 2..=127)` palette-RLE arm: a flag bit, 7 index bits, an
optional run length; the palette indexing inside the run is unchecked. -/
def indexedRleLoop (palette : List (List Nat)) (bpp : Nat) (remaining : Nat)
    (r : BitReader) (acc : List Nat) : Res (List Nat × BitReader) :=
  if h : 0 < remaining then
    match BitReader.readBit r with
    | .ok (longerThanOne, r1) =>
      match BitReader.readBits 7 r1 with
      | .ok (index, r2) =>
        match hrl : (if longerThanOne then readRunLength r2 else Res.ok (1, r2)) with
        | .ok (runLength, r3) =>
          match paletteRun palette index bpp runLength acc with
          | .ok acc' => indexedRleLoop palette bpp (remaining - runLength) r3 acc'
          | .err e => .err e
          | .panicked => .panicked
        | .err e => .err e
        | .panicked => .panicked
      | .err e => .err e
      | .panicked => .panicked
    | .err e => .err e
    | .panicked => .panicked
  else .ok (acc, r)
termination_by remaining
decreasing_by
  have hpos : 1 ≤ runLength := by
    split at hrl
    · unfold readRunLength at hrl
      split at hrl
      · split at hrl
        · cases hrl; omega
        · cases hrl
        · cases hrl
      · cases hrl
    · cases hrl; omega
  omega

/-- The palette-reading loop of `Decoder::decode` (lines 163–166):
`palette_size` cpixels. -/
def readPalette (pad : Bool) (cbpp : Nat) (n : Nat) (r : BitReader)
    (acc : List (List Nat)) : Res (List (List Nat) × BitReader) :=
  match n with
  | 0 => .ok (acc, r)
  | m + 1 =>
    match readPixel pad cbpp r with
    | .ok (pixel, r') => readPalette pad cbpp m r' (acc ++ [pixel])
    | .err e => .err e
    | .panicked => .panicked

/-- The subencoding dispatch of `Decoder::decode` (the
`match (is_rle, palette_size)` on lines 169–223). -/
def tileDispatch (pad : Bool) (cbpp bpp : Nat) (isRle : Bool) (paletteSize : Nat)
    (palette : List (List Nat)) (w h : Nat) (r : BitReader) : Res (List Nat × BitReader) :=
  if isRle = false ∧ paletteSize = 0 then
    rawPixelsLoop pad cbpp bpp (w * h) r []
  else if isRle = false ∧ paletteSize = 1 then
    match paletteRun palette 0 bpp (w * h) [] with
    | .ok pixels => .ok (pixels, r)
    | .err e => .err e
    | .panicked => .panicked
  else if isRle = false ∧ 2 ≤ paletteSize ∧ paletteSize ≤ 16 then
    let bitsPerIndex :=
      if paletteSize = 2 then 1
      else if 3 ≤ paletteSize ∧ paletteSize ≤ 4 then 2
      else 4
    packedRows bitsPerIndex palette bpp w h r []
  else if isRle = true ∧ paletteSize = 0 then
    rawRleLoop pad cbpp bpp (w * h) r []
  else if isRle = true ∧ 2 ≤ paletteSize ∧ paletteSize ≤ 127 then
    indexedRleLoop palette bpp (w * h) r []
  else .err (.unexpected "ZRLE subencoding")

/-- One 64×64 (or clipped) tile: header bit, 7-bit palette size, palette
entries, then the subencoding dispatch. -/
def decodeTile (pad : Bool) (cbpp bpp : Nat) (w h : Nat) (r : BitReader) :
    Res (List Nat × BitReader) :=
  match BitReader.readBit r with
  | .ok (isRle, r1) =>
    match BitReader.readBits 7 r1 with
    | .ok (paletteSize, r2) =>
      match readPalette pad cbpp paletteSize r2 [] with
      | .ok (palette, r3) => tileDispatch pad cbpp bpp isRle paletteSize palette w h r3
      | .err e => .err e
      | .panicked => .panicked
    | .err e => .err e
    | .panicked => .panicked
  | .err e => .err e
  | .panicked => .panicked

/-- `Rect`, all fields `u16`. -/
structure Rect where
  left : Nat
  top : Nat
  width : Nat
  height : Nat
deriving DecidableEq

/-- Result of the tile loops: the rect was processed to completion (`done`,
with the final reader), the callback declined to continue (`stopped`), an
`Err` propagated (`failed`), or the code panicked.  Every variant carries the
list of callback invocations made so far, in order, and the callback state. -/
inductive TilesOut (σ : Type) where
  | done : BitReader → List (Rect × List Nat) → σ → TilesOut σ
  | stopped : List (Rect × List Nat) → σ → TilesOut σ
  | failed : VncError → List (Rect × List Nat) → σ → TilesOut σ
  | panicked : List (Rect × List Nat) → σ → TilesOut σ

/-- The inner `while x < rect.width` loop of `Decoder::decode`: one row of
tiles at vertical offset `y` with tile height `ht`.  The callback is modelled
as a state-threading function (Rust `FnMut`); each invocation is recorded in
the trace. -/
def decodeTilesRow {σ : Type} (cb : σ → Rect → List Nat → Res (Bool × σ)) (pad : Bool)
    (cbpp bpp : Nat) (rect : Rect) (y ht : Nat) (x : Nat) (r : BitReader)
    (trace : List (Rect × List Nat)) (s : σ) : TilesOut σ :=
  if h : x < rect.width then
    let w := if x + 64 > rect.width then rect.width - x else 64
    match decodeTile pad cbpp bpp w ht r with
    | .ok (pixels, r') =>
      let tile : Rect := ⟨rect.left + x, rect.top + y, w, ht⟩
      match cb s tile pixels with
      | .ok (cont, s') =>
        if cont then
          decodeTilesRow cb pad cbpp bpp rect y ht (x + w) r' (trace ++ [(tile, pixels)]) s'
        else .stopped (trace ++ [(tile, pixels)]) s'
      | .err e => .failed e (trace ++ [(tile, pixels)]) s
      | .panicked => .panicked (trace ++ [(tile, pixels)]) s
    | .err e => .failed e trace s
    | .panicked => .panicked trace s
  else .done r trace s
termination_by rect.width - x
decreasing_by split <;> omega

/-- The outer `while y < rect.height` loop of `Decoder::decode`. -/
def decodeTilesFrom {σ : Type} (cb : σ → Rect → List Nat → Res (Bool × σ)) (pad : Bool)
    (cbpp bpp : Nat) (rect : Rect) (y : Nat) (r : BitReader)
    (trace : List (Rect × List Nat)) (s : σ) : TilesOut σ :=
  if h : y < rect.height then
    let ht := if y + 64 > rect.height then rect.height - y else 64
    match decodeTilesRow cb pad cbpp bpp rect y ht 0 r trace s with
    | .done r' trace' s' => decodeTilesFrom cb pad cbpp bpp rect (y + ht) r' trace' s'
    | out => out
  else .done r trace s
termination_by rect.height - y
decreasing_by split <;> omega

/-- `protocol::PixelFormat` (the fields `Decoder::decode` reads). -/
structure PixelFormat where
  bitsPerPixel : Nat
  depth : Nat
  bigEndian : Bool
  trueColour : Bool
  redMax : Nat
  greenMax : Nat
  blueMax : Nat
  redShift : Nat
  greenShift : Nat
  blueShift : Nat
deriving DecidableEq

/-- The `u32` pixel mask computed by `Decoder::decode`:
`(red_max << red_shift) | (green_max << green_shift) | (blue_max << blue_shift)`. -/
def pixelMask (f : PixelFormat) : Nat :=
  (((f.redMax <<< f.redShift) % 2 ^ 32) ||| ((f.greenMax <<< f.greenShift) % 2 ^ 32)
     ||| ((f.blueMax <<< f.blueShift) % 2 ^ 32))

/-- The `(compressed_bpp, pad_pixel)` selection of `Decoder::decode`
(lines 138–149). -/
def cpixelParams (f : PixelFormat) : Nat × Bool :=
  if f.bitsPerPixel = 32 ∧ f.trueColour = true ∧ f.depth ≤ 24 then
    if pixelMask f &&& 0x000000ff = 0 then (3, !f.bigEndian)
    else if pixelMask f &&& 0xff000000 = 0 then (3, f.bigEndian)
    else (4, false)
  else (f.bitsPerPixel / 4, false)

/-- `zrle::Decoder`: the nullable slot holding the inflate context. -/
structure Decoder where
  decompressor : Option Decompress
deriving DecidableEq

/-- `Decoder::new`. -/
def Decoder.new : Decoder := ⟨some .mk⟩

/-- `Decoder::decode`.  Returns the decoder's post-state (the slot), the
outcome, and the list of callback invocations in order.  Taking from an empty
slot (`self.decompressor.take().unwrap()`) panics; the slot is re-filled only
on the line `self.decompressor = Some(try!(try!(reader.into_inner()).into_inner()))`. -/
def Decoder.decode {σ : Type} (self : Decoder) (format : PixelFormat) (rect : Rect)
    (input : List Nat) (cb : σ → Rect → List Nat → Res (Bool × σ)) (s : σ) :
    Decoder × Res Bool × List (Rect × List Nat) :=
  match self.decompressor with
  | none => (⟨none⟩, .panicked, [])
  | some d =>
    let bpp := format.bitsPerPixel / 8
    let cbpp := (cpixelParams format).1
    let padPixel := (cpixelParams format).2
    match decodeTilesFrom cb padPixel cbpp bpp rect 0 (BitReader.new ⟨d, input⟩) [] s with
    | .done r trace _ =>
      match BitReader.intoInner r with
      | .ok zr =>
        match ZlibReader.intoInner zr with
        | .ok d' => (⟨some d'⟩, .ok true, trace)
        | .err e => (⟨none⟩, .err e, trace)
        | .panicked => (⟨none⟩, .panicked, trace)
      | .err e => (⟨none⟩, .err e, trace)
      | .panicked => (⟨none⟩, .panicked, trace)
    | .stopped trace _ => (⟨none⟩, .ok false, trace)
    | .failed e trace _ => (⟨none⟩, .err e, trace)
    | .panicked trace _ => (⟨none⟩, .panicked, trace)

/-! ### The tile grid, as the claim describes it -/

/-- The sequence of tile rects produced by the inner loop from offset `x`,
mirroring the loop's own stepping. -/
def rowTilesFrom (rect : Rect) (y ht : Nat) (x : Nat) : List Rect :=
  if h : x < rect.width then
    let w := if x + 64 > rect.width then rect.width - x else 64
    (⟨rect.left + x, rect.top + y, w, ht⟩ : Rect) :: rowTilesFrom rect y ht (x + w)
  else []
termination_by rect.width - x
decreasing_by split <;> omega

/-- The sequence of tile rects produced by the outer loop from offset `y`. -/
def gridTilesFrom (rect : Rect) (y : Nat) : List Rect :=
  if h : y < rect.height then
    let ht := if y + 64 > rect.height then rect.height - y else 64
    rowTilesFrom rect y ht 0 ++ gridTilesFrom rect (y + ht)
  else []
termination_by rect.height - y
decreasing_by split <;> omega

/-- The tile grid exactly as claim C8 words it: row-major over grid positions
`(i, j)`, tile `(i, j)` at `(left + 64 i, top + 64 j)` with clamped size. -/
def tileGridSpec (rect : Rect) : List Rect :=
  ((List.range ((rect.height + 63) / 64)).map (fun j =>
    (List.range ((rect.width + 63) / 64)).map (fun i =>
      (⟨rect.left + 64 * i, rect.top + 64 * j,
        min 64 (rect.width - 64 * i), min 64 (rect.height - 64 * j)⟩ : Rect)))).flatten

/-! ### The client host (`src/bin/client.rs`) -/

/-- The encodings the SDL client can advertise. -/
inductive Encoding where
  | raw
  | copyRect
  | zrle
  | cursor
  | desktopSize
deriving DecidableEq

/-- The `set_encodings` argument chosen by the client host (client.rs lines
326–338), depending on the QEMU quirk mode. -/
def clientSetEncodingsList (qemuHacks : Bool) : List Encoding :=
  if qemuHacks then [.zrle, .desktopSize]
  else [.zrle, .copyRect, .raw, .cursor, .desktopSize]

/-- The mouse state kept by the client host: current button mask (`u8`) and
pointer coordinates. -/
structure MouseState where
  buttons : Nat
  x : Nat
  y : Nat
deriving DecidableEq

/-- SDL mouse buttons as matched by the host. -/
inductive MouseButton where
  | left
  | middle
  | right
  | x1
  | x2
  | unknown
deriving DecidableEq

/-- The button-mask mapping of the host (client.rs lines 626–633). -/
def buttonMask : MouseButton → Nat
  | .left => 0x01
  | .middle => 0x02
  | .right => 0x04
  | .x1 => 0x20
  | .x2 => 0x40
  | .unknown => 0x00

/-- The SDL mouse events the host reacts to. -/
inductive MouseEvent where
  | motion (x y : Nat)
  | buttonDown (btn : MouseButton) (x y : Nat)
  | buttonUp (btn : MouseButton) (x y : Nat)
  | wheel (y : Int)
deriving DecidableEq

/-- One `send_pointer_event(buttons, x, y)` call. -/
structure PointerMsg where
  buttons : Nat
  x : Nat
  y : Nat
deriving DecidableEq

/-- The mouse-event handling of the client host's event loop (client.rs lines
609–654, after the view-only gate): returns the new mouse state and the
`send_pointer_event` calls made, in order. -/
def handleMouseEvent (qemuHacks : Bool) (st : MouseState) :
    MouseEvent → MouseState × List PointerMsg
  | .motion x y =>
    let st' : MouseState := ⟨st.buttons, x, y⟩
    (st', if qemuHacks then [] else [⟨st'.buttons, x, y⟩])
  | .buttonDown btn x y =>
    let st' : MouseState := ⟨st.buttons ||| buttonMask btn, x, y⟩
    (st', [⟨st'.buttons, x, y⟩])
  | .buttonUp btn x y =>
    let st' : MouseState := ⟨st.buttons &&& (255 ^^^ buttonMask btn), x, y⟩
    (st', [⟨st'.buttons, x, y⟩])
  | .wheel dy =>
    if dy = 1 then
      (st, [⟨st.buttons ||| 0x08, st.x, st.y⟩, ⟨st.buttons, st.x, st.y⟩])
    else if dy = -1 then
      (st, [⟨st.buttons ||| 0x10, st.x, st.y⟩, ⟨st.buttons, st.x, st.y⟩])
    else (st, [])

/-! ### Concrete fixtures used by the closed theorems and witnesses -/

/-- 32bpp RGB888 little-endian (red shift 16, green 8, blue 0): the format of
claim C6; its unused byte is the top one, so the source picks
`(3, big_endian) = (3, false)`. -/
def rgb888LE : PixelFormat := ⟨32, 24, false, true, 255, 255, 255, 16, 8, 0⟩

/-- A 32bpp depth-24 little-endian format whose channels sit in the upper
three bytes (shifts 24/16/8), so `pixel_mask & 0xff = 0` and the source picks
`(3, !big_endian) = (3, true)`: the pad-low cpixel path of claim C1. -/
def padLow32LE : PixelFormat := ⟨32, 24, false, true, 255, 255, 255, 24, 16, 8⟩

/-- The 1×1 rect at the origin. -/
def rect1x1 : Rect := ⟨0, 0, 1, 1⟩

/-- A callback that always continues and carries no state. -/
def cbTrue : Unit → Rect → List Nat → Res (Bool × Unit) := fun s _ _ => .ok (true, s)

/-- A palette-RLE tile stream for a 1×1 rect: header `(true, 2)`, two 3-byte
palette entries, then a control byte encoding run flag 0 and palette index 5,
which is out of range for the 2-entry palette. -/
def rleOobStream : List Nat := [0x82, 1, 2, 3, 4, 5, 6, 0x05]

/-- A packed-palette tile stream for a 1×1 rect: header `(false, 3)`, three
3-byte palette entries, then a packed byte whose top two bits encode index 3,
out of range for the 3-entry palette. -/
def packedOobStream : List Nat := [0x03, 1, 2, 3, 4, 5, 6, 7, 8, 9, 0xC0]

/-!
Helper lemmas: position/alignment invariants of the reader stack, error-shape
facts about the decoding loops, and the tile-grid characterisation of the
tile loops.
-/

theorem readExact_ok_state {n : Nat} {r r' : BitReader} {bs : List Nat}
    (h : BitReader.readExact n r = .ok (bs, r')) :
    r'.position = r.position ∧ r'.buffer = r.buffer := by
  unfold BitReader.readExact at h
  split at h
  · cases h; exact ⟨rfl, rfl⟩
  · split at h
    · split at h
      · cases h; exact ⟨rfl, rfl⟩
      · cases h
    · cases h

theorem readPixel_ok_state {pad : Bool} {bpp : Nat} {r r' : BitReader} {p : List Nat}
    (h : readPixel pad bpp r = .ok (p, r')) :
    r'.position = r.position ∧ r'.buffer = r.buffer := by
  unfold readPixel at h
  generalize (if pad then 1 else 0) = start at h
  split at h
  · split at h
    · rename_i heq
      cases h
      exact readExact_ok_state heq
    · cases h
    · cases h
  · cases h

theorem readRunLength_ok_state {r r' : BitReader} {n : Nat}
    (h : readRunLength r = .ok (n, r')) :
    r'.position = r.position ∧ r'.buffer = r.buffer ∧ 1 ≤ n := by
  unfold readRunLength at h
  split at h
  · split at h
    · cases h; exact ⟨rfl, rfl, by omega⟩
    · cases h
    · cases h
  · cases h

theorem readBits_ok_position {c : Nat} {r r' : BitReader} {v : Nat}
    (h : BitReader.readBits c r = .ok (v, r')) :
    r'.position = (if r.position = 8 then 0 else r.position) + c := by
  unfold BitReader.readBits at h
  split at h
  · split at h
    · rename_i s heq
      split at h
      · cases h
        split at heq
        · rename_i hpos
          split at heq
          · cases heq
          · cases heq
            simp [hpos]
        · rename_i hpos
          cases heq
          simp [hpos]
      · cases h
    · cases h
    · cases h
  · cases h

theorem readBit_ok_position {r r' : BitReader} {v : Bool}
    (h : BitReader.readBit r = .ok (v, r')) :
    r'.position = (if r.position = 8 then 0 else r.position) + 1 := by
  unfold BitReader.readBit at h
  split at h
  · rename_i heq; cases h; exact readBits_ok_position heq
  · cases h
  · cases h

theorem readPalette_ok_state {pad : Bool} {cbpp : Nat} :
    ∀ (n : Nat) {r : BitReader} {acc pal : List (List Nat)} {r' : BitReader},
      readPalette pad cbpp n r acc = .ok (pal, r') →
      r'.position = r.position ∧ r'.buffer = r.buffer := by
  intro n
  induction n with
  | zero =>
    intro r acc pal r' h
    unfold readPalette at h
    cases h; exact ⟨rfl, rfl⟩
  | succ m ih =>
    intro r acc pal r' h
    unfold readPalette at h
    split at h
    · rename_i pixel r1 hpx
      have h1 := readPixel_ok_state hpx
      have h2 := ih h
      omega
    · cases h
    · cases h

theorem rawPixelsLoop_ok_state {pad : Bool} {cbpp bpp : Nat} :
    ∀ (n : Nat) {r : BitReader} {acc acc' : List Nat} {r' : BitReader},
      rawPixelsLoop pad cbpp bpp n r acc = .ok (acc', r') →
      r'.position = r.position ∧ r'.buffer = r.buffer := by
  intro n
  induction n with
  | zero =>
    intro r acc acc' r' h
    unfold rawPixelsLoop at h
    cases h; exact ⟨rfl, rfl⟩
  | succ m ih =>
    intro r acc acc' r' h
    unfold rawPixelsLoop at h
    split at h
    · rename_i pixel r1 hpx
      split at h
      · rename_i acc1 hext
        have h1 := readPixel_ok_state hpx
        have h2 := ih h
        omega
      · cases h
      · cases h
    · cases h
    · cases h

theorem packedRows_ok_position {bpi : Nat} {palette : List (List Nat)} {bpp w : Nat} :
    ∀ (h : Nat) {r : BitReader} {acc acc' : List Nat} {r' : BitReader},
      r.position = 8 →
      packedRows bpi palette bpp w h r acc = .ok (acc', r') →
      r'.position = 8 := by
  intro h
  induction h with
  | zero =>
    intro r acc acc' r' hpos hh
    unfold packedRows at hh
    cases hh; exact hpos
  | succ m ih =>
    intro r acc acc' r' hpos hh
    unfold packedRows at hh
    split at hh
    · exact ih rfl hh
    · cases hh
    · cases hh

theorem rawRleLoop_ok_state :
    ∀ (n : Nat) {pad : Bool} {cbpp bpp remaining : Nat} {r : BitReader} {acc acc' : List Nat}
      {r' : BitReader}, remaining ≤ n →
      rawRleLoop pad cbpp bpp remaining r acc = .ok (acc', r') →
      r'.position = r.position ∧ r'.buffer = r.buffer := by
  intro n
  induction n with
  | zero =>
    intro pad cbpp bpp remaining r acc acc' r' hle h
    unfold rawRleLoop at h
    rw [dif_neg (by omega)] at h
    cases h; exact ⟨rfl, rfl⟩
  | succ n ih =>
    intro pad cbpp bpp remaining r acc acc' r' hle h
    unfold rawRleLoop at h
    split at h
    · split at h
      · rename_i pixel r1 hpx
        split at h
        · rename_i runLength r2 hrl
          split at h
          · rename_i acc1 hrun
            have h1 := readPixel_ok_state hpx
            have h2 := readRunLength_ok_state hrl
            have h3 := ih (by omega) h
            omega
          · cases h
          · cases h
        · cases h
        · cases h
      · cases h
      · cases h
    · cases h; exact ⟨rfl, rfl⟩

theorem indexedRleLoop_ok_position :
    ∀ (n : Nat) {palette : List (List Nat)} {bpp remaining : Nat} {r : BitReader}
      {acc acc' : List Nat} {r' : BitReader}, remaining ≤ n → r.position = 8 →
      indexedRleLoop palette bpp remaining r acc = .ok (acc', r') →
      r'.position = 8 := by
  intro n
  induction n with
  | zero =>
    intro palette bpp remaining r acc acc' r' hle hpos h
    unfold indexedRleLoop at h
    rw [dif_neg (by omega)] at h
    cases h; exact hpos
  | succ n ih =>
    intro palette bpp remaining r acc acc' r' hle hpos h
    unfold indexedRleLoop at h
    split at h
    · split at h
      · rename_i longer r1 hb
        split at h
        · rename_i index r2 h7
          split at h
          · rename_i runLength r3 hrl
            split at h
            · rename_i acc1 hrun
              have h1 := readBit_ok_position hb
              rw [if_pos hpos] at h1
              have h2 := readBits_ok_position h7
              rw [if_neg (by omega)] at h2
              have h2' : r2.position = 8 := by omega
              have hr3 : r3.position = 8 ∧ 1 ≤ runLength := by
                split at hrl
                · have := readRunLength_ok_state hrl
                  omega
                · cases hrl; omega
              exact ih (by omega) hr3.1 h
            · cases h
            · cases h
          · cases h
          · cases h
        · cases h
        · cases h
      · cases h
      · cases h
    · cases h; exact hpos

theorem tileDispatch_ok_position {pad : Bool} {cbpp bpp : Nat} {isRle : Bool}
    {ps : Nat} {palette : List (List Nat)} {w h : Nat} {r : BitReader}
    {px : List Nat} {r' : BitReader}
    (hpos : r.position = 8)
    (hd : tileDispatch pad cbpp bpp isRle ps palette w h r = .ok (px, r')) :
    r'.position = 8 := by
  unfold tileDispatch at hd
  split at hd
  · have := rawPixelsLoop_ok_state (w * h) hd
    omega
  · split at hd
    · split at hd
      · cases hd; exact hpos
      · cases hd
      · cases hd
    · split at hd
      · exact packedRows_ok_position h hpos hd
      · split at hd
        · have := rawRleLoop_ok_state (w * h) (le_refl _) hd
          omega
        · split at hd
          · exact indexedRleLoop_ok_position (w * h) (le_refl _) hpos hd
          · cases hd

theorem decodeTile_ok_position {pad : Bool} {cbpp bpp w h : Nat} {r : BitReader}
    {px : List Nat} {r' : BitReader}
    (hpos : r.position = 8)
    (hd : decodeTile pad cbpp bpp w h r = .ok (px, r')) :
    r'.position = 8 := by
  unfold decodeTile at hd
  split at hd
  · rename_i isRle r1 hb
    split at hd
    · rename_i ps r2 h7
      split at hd
      · rename_i palette r3 hpal
        have h1 := readBit_ok_position hb
        rw [if_pos hpos] at h1
        have h2 := readBits_ok_position h7
        rw [if_neg (by omega)] at h2
        have h3 := readPalette_ok_state ps hpal
        exact tileDispatch_ok_position (by omega) hd
      · cases hd
      · cases hd
    · cases hd
    · cases hd
  · cases hd
  · cases hd

theorem decodeTilesRow_done_position {σ : Type} {cb : σ → Rect → List Nat → Res (Bool × σ)}
    {pad : Bool} {cbpp bpp : Nat} {rect : Rect} {y ht : Nat} :
    ∀ (n : Nat) {x : Nat} {r : BitReader} {trace : List (Rect × List Nat)} {s : σ}
      {r' : BitReader} {trace' : List (Rect × List Nat)} {s' : σ},
      rect.width - x ≤ n → r.position = 8 →
      decodeTilesRow cb pad cbpp bpp rect y ht x r trace s = .done r' trace' s' →
      r'.position = 8 := by
  intro n
  induction n with
  | zero =>
    intro x r trace s r' trace' s' hle hpos h
    unfold decodeTilesRow at h
    rw [dif_neg (by omega)] at h
    cases h; exact hpos
  | succ n ih =>
    intro x r trace s r' trace' s' hle hpos h
    unfold decodeTilesRow at h
    split at h
    · rename_i hx
      split at h <;> simp only [] at h <;>
      · split at h
        · rename_i pixels r1 htile
          split at h
          · rename_i cont s1 hcb
            split at h
            · have h1 := decodeTile_ok_position hpos htile
              exact ih (by omega) h1 h
            · cases h
          · cases h
          · cases h
        · cases h
        · cases h
    · cases h; exact hpos

theorem decodeTilesFrom_done_position {σ : Type} {cb : σ → Rect → List Nat → Res (Bool × σ)}
    {pad : Bool} {cbpp bpp : Nat} {rect : Rect} :
    ∀ (n : Nat) {y : Nat} {r : BitReader} {trace : List (Rect × List Nat)} {s : σ}
      {r' : BitReader} {trace' : List (Rect × List Nat)} {s' : σ},
      rect.height - y ≤ n → r.position = 8 →
      decodeTilesFrom cb pad cbpp bpp rect y r trace s = .done r' trace' s' →
      r'.position = 8 := by
  intro n
  induction n with
  | zero =>
    intro y r trace s r' trace' s' hle hpos h
    unfold decodeTilesFrom at h
    rw [dif_neg (by omega)] at h
    cases h; exact hpos
  | succ n ih =>
    intro y r trace s r' trace' s' hle hpos h
    unfold decodeTilesFrom at h
    split at h
    · rename_i hy
      split at h <;> simp only [] at h <;>
      · split at h
        · rename_i r1 trace1 s1 hrow
          have h1 := decodeTilesRow_done_position (rect.width - 0) (le_refl _) hpos hrow
          exact ih (by omega) h1 h
        · rename_i hout
          rw [h] at hout
          exact absurd rfl (hout r' trace' s')
    · cases h; exact hpos

theorem extendSlice_ne_err {acc pixel : List Nat} {bpp : Nat} {e : VncError} :
    extendSlice acc pixel bpp ≠ .err e := by
  unfold extendSlice
  split <;> intro h <;> cases h

theorem pixelRun_ne_err {pixel : List Nat} {bpp : Nat} :
    ∀ (n : Nat) {acc : List Nat} {e : VncError}, pixelRun pixel bpp n acc ≠ .err e := by
  intro n
  induction n with
  | zero => intro acc e h; cases h
  | succ m ih =>
    intro acc e h
    unfold pixelRun at h
    split at h
    · exact ih h
    · rename_i heq; exact extendSlice_ne_err heq
    · cases h

theorem paletteRun_ne_err {palette : List (List Nat)} {index bpp : Nat} :
    ∀ (n : Nat) {acc : List Nat} {e : VncError}, paletteRun palette index bpp n acc ≠ .err e := by
  intro n
  induction n with
  | zero => intro acc e h; cases h
  | succ m ih =>
    intro acc e h
    unfold paletteRun at h
    split at h
    · split at h
      · exact ih h
      · rename_i heq; exact extendSlice_ne_err heq
      · cases h
    · cases h

theorem readExact_err_io {n : Nat} {r : BitReader} {e : VncError}
    (h : BitReader.readExact n r = .err e) : ∃ m, e = .ioError m := by
  unfold BitReader.readExact at h
  split at h
  · cases h
  · split at h
    · split at h
      · cases h
      · cases h; exact ⟨_, rfl⟩
    · cases h; exact ⟨_, rfl⟩

theorem readPixel_err_io {pad : Bool} {bpp : Nat} {r : BitReader} {e : VncError}
    (h : readPixel pad bpp r = .err e) : ∃ m, e = .ioError m := by
  unfold readPixel at h
  generalize (if pad then 1 else 0) = start at h
  split at h
  · split at h
    · cases h
    · rename_i heq; cases h; exact readExact_err_io heq
    · cases h
  · cases h

theorem readBits_err_io {c : Nat} {r : BitReader} {e : VncError}
    (h : BitReader.readBits c r = .err e) : ∃ m, e = .ioError m := by
  unfold BitReader.readBits at h
  split at h
  · split at h
    · split at h
      · cases h
      · cases h; exact ⟨_, rfl⟩
    · rename_i heq
      cases h
      split at heq
      · split at heq
        · cases heq; exact ⟨_, rfl⟩
        · cases heq
      · cases heq
    · cases h
  · cases h

theorem readBit_err_io {r : BitReader} {e : VncError}
    (h : BitReader.readBit r = .err e) : ∃ m, e = .ioError m := by
  unfold BitReader.readBit at h
  split at h
  · cases h
  · rename_i heq; cases h; exact readBits_err_io heq
  · cases h

theorem runLengthParts_err_io {l : List Nat} {e : VncError}
    (h : runLengthParts l = .err e) : ∃ m, e = .ioError m := by
  induction l with
  | nil => cases h; exact ⟨_, rfl⟩
  | cons b rest ih =>
    unfold runLengthParts at h
    split at h
    · split at h
      · cases h
      · rename_i heq; cases h; exact ih heq
      · cases h
    · cases h

theorem readRunLength_err_io {r : BitReader} {e : VncError}
    (h : readRunLength r = .err e) : ∃ m, e = .ioError m := by
  unfold readRunLength at h
  split at h
  · split at h
    · cases h
    · rename_i heq; cases h; exact runLengthParts_err_io heq
    · cases h
  · cases h; exact ⟨_, rfl⟩

theorem rawPixelsLoop_err_io {pad : Bool} {cbpp bpp : Nat} :
    ∀ (n : Nat) {r : BitReader} {acc : List Nat} {e : VncError},
      rawPixelsLoop pad cbpp bpp n r acc = .err e → ∃ m, e = .ioError m := by
  intro n
  induction n with
  | zero => intro r acc e h; cases h
  | succ m ih =>
    intro r acc e h
    unfold rawPixelsLoop at h
    split at h
    · split at h
      · exact ih h
      · rename_i heq; exact absurd heq extendSlice_ne_err
      · cases h
    · rename_i heq; cases h; exact readPixel_err_io heq
    · cases h

theorem packedRow_err_io {bpi : Nat} {palette : List (List Nat)} {bpp : Nat} :
    ∀ (w : Nat) {r : BitReader} {acc : List Nat} {e : VncError},
      packedRow bpi palette bpp w r acc = .err e → ∃ m, e = .ioError m := by
  intro w
  induction w with
  | zero => intro r acc e h; cases h
  | succ m ih =>
    intro r acc e h
    unfold packedRow at h
    split at h
    · split at h
      · exact ih h
      · rename_i heq; exact absurd heq (paletteRun_ne_err 1)
      · cases h
    · rename_i heq; cases h; exact readBits_err_io heq
    · cases h

theorem packedRows_err_io {bpi : Nat} {palette : List (List Nat)} {bpp w : Nat} :
    ∀ (hh : Nat) {r : BitReader} {acc : List Nat} {e : VncError},
      packedRows bpi palette bpp w hh r acc = .err e → ∃ m, e = .ioError m := by
  intro hh
  induction hh with
  | zero => intro r acc e h; cases h
  | succ m ih =>
    intro r acc e h
    unfold packedRows at h
    split at h
    · exact ih h
    · rename_i heq; cases h; exact packedRow_err_io w heq
    · cases h

theorem rawRleLoop_err_io :
    ∀ (n : Nat) {pad : Bool} {cbpp bpp remaining : Nat} {r : BitReader} {acc : List Nat}
      {e : VncError}, remaining ≤ n →
      rawRleLoop pad cbpp bpp remaining r acc = .err e → ∃ m, e = .ioError m := by
  intro n
  induction n with
  | zero =>
    intro pad cbpp bpp remaining r acc e hle h
    unfold rawRleLoop at h
    rw [dif_neg (by omega)] at h
    cases h
  | succ n ih =>
    intro pad cbpp bpp remaining r acc e hle h
    unfold rawRleLoop at h
    split at h
    · split at h
      · split at h
        · rename_i runLength r2 hrl
          split at h
          · have h2 := readRunLength_ok_state hrl
            exact ih (by omega) h
          · rename_i heq; exact absurd heq (pixelRun_ne_err _)
          · cases h
        · rename_i heq; cases h; exact readRunLength_err_io heq
        · cases h
      · rename_i heq; cases h; exact readPixel_err_io heq
      · cases h
    · cases h

theorem indexedRleLoop_err_io :
    ∀ (n : Nat) {palette : List (List Nat)} {bpp remaining : Nat} {r : BitReader}
      {acc : List Nat} {e : VncError}, remaining ≤ n →
      indexedRleLoop palette bpp remaining r acc = .err e → ∃ m, e = .ioError m := by
  intro n
  induction n with
  | zero =>
    intro palette bpp remaining r acc e hle h
    unfold indexedRleLoop at h
    rw [dif_neg (by omega)] at h
    cases h
  | succ n ih =>
    intro palette bpp remaining r acc e hle h
    unfold indexedRleLoop at h
    split at h
    · split at h
      · split at h
        · split at h
          · rename_i runLength r3 hrl
            split at h
            · have hrl1 : 1 ≤ runLength := by
                split at hrl
                · exact (readRunLength_ok_state hrl).2.2
                · cases hrl; omega
              exact ih (by omega) h
            · rename_i heq; exact absurd heq (paletteRun_ne_err _)
            · cases h
          · rename_i heq
            cases h
            split at heq
            · exact readRunLength_err_io heq
            · cases heq
          · cases h
        · rename_i heq; cases h; exact readBits_err_io heq
        · cases h
      · rename_i heq; cases h; exact readBit_err_io heq
      · cases h
    · cases h

/-- Claim C5: the subencoding dispatch of `Decoder::decode` returns
`Unexpected("ZRLE subencoding")` exactly when the tile header decoded to
`(rle = false, palette_size ∈ 17..=127)` or `(rle = true, palette_size = 1)`;
every other `(rle, palette_size)` combination representable in the header
byte (`palette_size ≤ 127`) dispatches to a defined subencoding, whose only
errors are I/O errors. -/
theorem c5_main {pad : Bool} {cbpp bpp : Nat} {isRle : Bool} {ps : Nat}
    {palette : List (List Nat)} {w h : Nat} {r : BitReader} (hps : ps ≤ 127) :
    tileDispatch pad cbpp bpp isRle ps palette w h r
        = .err (.unexpected "ZRLE subencoding")
      ↔ ((isRle = false ∧ 17 ≤ ps ∧ ps ≤ 127) ∨ (isRle = true ∧ ps = 1)) := by
  unfold tileDispatch
  split
  · rename_i hc
    refine iff_of_false (fun hh => ?_) ?_
    · obtain ⟨m, hm⟩ := rawPixelsLoop_err_io (w * h) hh
      cases hm
    · rintro (⟨h1, h2, h3⟩ | ⟨h1, h2⟩) <;> simp_all
  · split
    · rename_i hc0 hc
      refine iff_of_false (fun hh => ?_) ?_
      · split at hh
        · cases hh
        · rename_i heq; exact absurd heq (paletteRun_ne_err _)
        · cases hh
      · rintro (⟨h1, h2, h3⟩ | ⟨h1, h2⟩) <;> simp_all
    · split
      · rename_i hc0 hc1 hc
        refine iff_of_false (fun hh => ?_) ?_
        · obtain ⟨m, hm⟩ := packedRows_err_io h hh
          cases hm
        · rintro (⟨h1, h2, h3⟩ | ⟨h1, h2⟩) <;> simp_all
          omega
      · split
        · rename_i hc0 hc1 hc2 hc
          refine iff_of_false (fun hh => ?_) ?_
          · obtain ⟨m, hm⟩ := rawRleLoop_err_io (w * h) (le_refl _) hh
            cases hm
          · rintro (⟨h1, h2, h3⟩ | ⟨h1, h2⟩) <;> simp_all
        · split
          · rename_i hc0 hc1 hc2 hc3 hc
            refine iff_of_false (fun hh => ?_) ?_
            · obtain ⟨m, hm⟩ := indexedRleLoop_err_io (w * h) (le_refl _) hh
              cases hm
            · rintro (⟨h1, h2, h3⟩ | ⟨h1, h2⟩) <;> simp_all
          · rename_i hc0 hc1 hc2 hc3 hc4
            refine iff_of_true rfl ?_
            cases isRle
            · refine Or.inl ⟨rfl, ?_, hps⟩
              simp only [true_and] at hc0 hc1 hc2
              omega
            · refine Or.inr ⟨rfl, ?_⟩
              simp only [true_and] at hc3 hc4
              omega

theorem runLengthParts_spec (pre : List Nat) (lastB : Nat) (rest : List Nat)
    (hpre : ∀ b ∈ pre, b = 255) (hlast : lastB ≠ 255) :
    runLengthParts (pre ++ lastB :: rest) = .ok (pre.sum + lastB, rest) := by
  induction pre with
  | nil =>
    rw [List.nil_append]
    unfold runLengthParts
    rw [if_neg hlast]
    simp
  | cons a pre ih =>
    have ha : a = 255 := hpre a (by simp)
    have hrec := ih (fun b hb => hpre b (by simp [hb]))
    rw [List.cons_append]
    unfold runLengthParts
    rw [if_pos ha, hrec]
    simp [ha]
    omega

/-- Claim C4: for every non-empty byte sequence whose all-but-last bytes are
255 and whose last byte is not 255, `read_run_length` consumes exactly that
sequence (the reader is left on the rest) and returns 1 plus the sum of its
bytes; and every returned run length is at least 1 (a single byte `b` yields
`1 + b` as the `pre = []` instance). -/
theorem c4_main :
    (∀ (pre : List Nat) (lastB : Nat) (rest : List Nat) (r : BitReader),
      r.position = 8 → r.reader.input = pre ++ lastB :: rest →
      (∀ b ∈ pre, b = 255) → lastB ≠ 255 →
      readRunLength r
        = .ok (1 + (pre ++ [lastB]).sum, ⟨⟨r.reader.decompressor, rest⟩, r.buffer, r.position⟩))
    ∧ (∀ (r r' : BitReader) (n : Nat), readRunLength r = .ok (n, r') → 1 ≤ n) := by
  constructor
  · intro pre lastB rest r hpos hinput hpre hlast
    unfold readRunLength
    rw [if_pos hpos, hinput, runLengthParts_spec pre lastB rest hpre hlast]
    simp

  · intro r r' n h
    exact (readRunLength_ok_state h).2.2

/-- Witness for claim C4 at the concrete sequence `[255, 3]`. -/
theorem c4_witness :
    (∀ b ∈ [255], b = 255) ∧ (3 : Nat) ≠ 255 ∧
    readRunLength ⟨⟨.mk, [255, 3]⟩, 0, 8⟩
      = .ok (1 + (([255] : List Nat) ++ [3]).sum, ⟨⟨.mk, []⟩, 0, 8⟩) :=
  ⟨by decide, by decide,
   c4_main.1 [255] 3 [] ⟨⟨.mk, [255, 3]⟩, 0, 8⟩ rfl rfl (by decide) (by decide)⟩

theorem decodeTilesRow_done_trace {σ : Type} {cb : σ → Rect → List Nat → Res (Bool × σ)}
    {pad : Bool} {cbpp bpp : Nat} {rect : Rect} {y ht : Nat} :
    ∀ (n : Nat) {x : Nat} {r : BitReader} {trace : List (Rect × List Nat)} {s : σ}
      {r' : BitReader} {trace' : List (Rect × List Nat)} {s' : σ},
      rect.width - x ≤ n →
      decodeTilesRow cb pad cbpp bpp rect y ht x r trace s = .done r' trace' s' →
      trace'.map Prod.fst = trace.map Prod.fst ++ rowTilesFrom rect y ht x := by
  intro n
  induction n with
  | zero =>
    intro x r trace s r' trace' s' hle h
    unfold decodeTilesRow at h
    rw [dif_neg (by omega)] at h
    cases h
    unfold rowTilesFrom
    rw [dif_neg (by omega)]
    simp
  | succ n ih =>
    intro x r trace s r' trace' s' hle h
    unfold decodeTilesRow at h
    rw [rowTilesFrom]
    split at h
    · rename_i hx
      rw [dif_pos hx]
      by_cases hw : x + 64 > rect.width
      · rw [if_pos hw] at h ⊢
        simp only [] at h ⊢
        split at h
        · rename_i pixels r1 htile
          split at h
          · rename_i cont s1 hcb
            split at h
            · have := ih (by omega) h
              rw [this]
              simp
            · cases h
          · cases h
          · cases h
        · cases h
        · cases h
      · rw [if_neg hw] at h ⊢
        simp only [] at h ⊢
        split at h
        · rename_i pixels r1 htile
          split at h
          · rename_i cont s1 hcb
            split at h
            · have := ih (by omega) h
              rw [this]
              simp
            · cases h
          · cases h
          · cases h
        · cases h
        · cases h
    · rename_i hx
      cases h
      rw [dif_neg hx]
      simp

theorem decodeTilesFrom_done_trace {σ : Type} {cb : σ → Rect → List Nat → Res (Bool × σ)}
    {pad : Bool} {cbpp bpp : Nat} {rect : Rect} :
    ∀ (n : Nat) {y : Nat} {r : BitReader} {trace : List (Rect × List Nat)} {s : σ}
      {r' : BitReader} {trace' : List (Rect × List Nat)} {s' : σ},
      rect.height - y ≤ n →
      decodeTilesFrom cb pad cbpp bpp rect y r trace s = .done r' trace' s' →
      trace'.map Prod.fst = trace.map Prod.fst ++ gridTilesFrom rect y := by
  intro n
  induction n with
  | zero =>
    intro y r trace s r' trace' s' hle h
    unfold decodeTilesFrom at h
    rw [dif_neg (by omega)] at h
    cases h
    unfold gridTilesFrom
    rw [dif_neg (by omega)]
    simp
  | succ n ih =>
    intro y r trace s r' trace' s' hle h
    unfold decodeTilesFrom at h
    rw [gridTilesFrom]
    split at h
    · rename_i hy
      rw [dif_pos hy]
      by_cases hh : y + 64 > rect.height
      · rw [if_pos hh] at h ⊢
        simp only [] at h ⊢
        split at h
        · rename_i r1 trace1 s1 hrow
          have h1 := decodeTilesRow_done_trace (rect.width - 0) (le_refl _) hrow
          have h2 := ih (by omega) h
          rw [h2, h1]
          simp
        · rename_i hout
          rw [h] at hout
          exact absurd rfl (hout r' trace' s')
      · rw [if_neg hh] at h ⊢
        simp only [] at h ⊢
        split at h
        · rename_i r1 trace1 s1 hrow
          have h1 := decodeTilesRow_done_trace (rect.width - 0) (le_refl _) hrow
          have h2 := ih (by omega) h
          rw [h2, h1]
          simp
        · rename_i hout
          rw [h] at hout
          exact absurd rfl (hout r' trace' s')
    · rename_i hy
      cases h
      rw [dif_neg hy]
      simp

theorem rowTilesFrom_closed {rect : Rect} {y ht : Nat} :
    ∀ (n k : Nat), rect.width - 64 * k ≤ n →
      rowTilesFrom rect y ht (64 * k)
        = (List.range ((rect.width + 63) / 64 - k)).map (fun i =>
            (⟨rect.left + 64 * (k + i), rect.top + y,
              min 64 (rect.width - 64 * (k + i)), ht⟩ : Rect)) := by
  intro n
  induction n with
  | zero =>
    intro k hle
    unfold rowTilesFrom
    rw [dif_neg (by omega)]
    have hc : (rect.width + 63) / 64 - k = 0 := by omega
    rw [hc]
    simp
  | succ n ih =>
    intro k hle
    by_cases hx : 64 * k < rect.width
    · rw [rowTilesFrom, dif_pos hx]
      by_cases hw : 64 * k + 64 > rect.width
      · rw [if_pos hw]
        simp only []
        have hstop : rowTilesFrom rect y ht (64 * k + (rect.width - 64 * k)) = [] := by
          unfold rowTilesFrom
          rw [dif_neg (by omega)]
        rw [hstop]
        have hc : (rect.width + 63) / 64 - k = 1 := by omega
        rw [hc]
        simp only [List.range_succ, List.range_zero, List.nil_append, List.map_cons,
          List.map_nil]
        simp [Rect.mk.injEq] <;> omega
      · rw [if_neg hw]
        simp only []
        have hnext : 64 * k + 64 = 64 * (k + 1) := by ring
        rw [hnext, ih (k + 1) (by omega)]
        have hc : (rect.width + 63) / 64 - k = ((rect.width + 63) / 64 - (k + 1)) + 1 := by
          omega
        rw [hc, List.range_succ_eq_map]
        simp only [List.map_cons, List.map_map]
        congr 1
        · simp [Rect.mk.injEq] <;> omega
        · refine List.map_congr_left ?_
          intro i _
          have hk : k + Nat.succ i = k + 1 + i := by omega
          simp only [Function.comp_apply, hk]
    · rw [rowTilesFrom, dif_neg hx]
      have hc : (rect.width + 63) / 64 - k = 0 := by omega
      rw [hc]
      simp

theorem gridTilesFrom_closed {rect : Rect} :
    ∀ (n j : Nat), rect.height - 64 * j ≤ n →
      gridTilesFrom rect (64 * j)
        = ((List.range ((rect.height + 63) / 64 - j)).map (fun j' =>
            (List.range ((rect.width + 63) / 64)).map (fun i =>
              (⟨rect.left + 64 * i, rect.top + 64 * (j + j'),
                min 64 (rect.width - 64 * i),
                min 64 (rect.height - 64 * (j + j'))⟩ : Rect)))).flatten := by
  intro n
  induction n with
  | zero =>
    intro j hle
    unfold gridTilesFrom
    rw [dif_neg (by omega)]
    have hc : (rect.height + 63) / 64 - j = 0 := by omega
    rw [hc]
    simp
  | succ n ih =>
    intro j hle
    by_cases hy : 64 * j < rect.height
    · rw [gridTilesFrom, dif_pos hy]
      by_cases hh : 64 * j + 64 > rect.height
      · rw [if_pos hh]
        simp only []
        have hrow := @rowTilesFrom_closed rect (64 * j) (rect.height - 64 * j) rect.width 0
          (by omega)
        rw [Nat.mul_zero] at hrow
        have hstop : gridTilesFrom rect (64 * j + (rect.height - 64 * j)) = [] := by
          unfold gridTilesFrom
          rw [dif_neg (by omega)]
        rw [hstop, hrow]
        have hc : (rect.height + 63) / 64 - j = 1 := by omega
        rw [hc]
        simp only [List.range_succ, List.range_zero, List.nil_append, List.map_cons,
          List.map_nil, List.flatten_cons, List.flatten_nil, List.append_nil]
        refine List.map_congr_left ?_
        intro i _
        simp [Rect.mk.injEq] <;> omega
      · rw [if_neg hh]
        simp only []
        have hrow := @rowTilesFrom_closed rect (64 * j) 64 rect.width 0 (by omega)
        rw [Nat.mul_zero] at hrow
        have hnext : 64 * j + 64 = 64 * (j + 1) := by ring
        rw [hnext, ih (j + 1) (by omega), hrow]
        have hc : (rect.height + 63) / 64 - j = ((rect.height + 63) / 64 - (j + 1)) + 1 := by
          omega
        rw [hc, List.range_succ_eq_map]
        simp only [List.map_cons, List.map_map, List.flatten_cons]
        congr 1
        · refine List.map_congr_left ?_
          intro i _
          simp [Rect.mk.injEq] <;> omega
        · congr 1
          refine List.map_congr_left ?_
          intro j' _
          have hk : j + Nat.succ j' = j + 1 + j' := by omega
          simp only [Function.comp_apply, hk]
    · rw [gridTilesFrom, dif_neg hy]
      have hc : (rect.height + 63) / 64 - j = 0 := by omega
      rw [hc]
      simp

theorem gridTilesFrom_zero_eq_spec (rect : Rect) : gridTilesFrom rect 0 = tileGridSpec rect := by
  have h := @gridTilesFrom_closed rect rect.height 0 (by omega)
  rw [Nat.mul_zero] at h
  rw [h]
  unfold tileGridSpec
  simp

/-- Claim C8: whenever `Decoder::decode` returns `Ok(true)` on a rect with
positive width and height, the recorded callback invocations visit exactly
the row-major tile grid: tile `(i, j)` has
`left = rect.left + 64 i`, `top = rect.top + 64 j`,
`width = min 64 (rect.width - 64 i)`, `height = min 64 (rect.height - 64 j)`,
once per tile in increasing `(j, i)` order. -/
theorem c8_main {σ : Type} (cb : σ → Rect → List Nat → Res (Bool × σ)) (s : σ)
    (dec : Decoder) (format : PixelFormat) (rect : Rect) (input : List Nat)
    (hw : 0 < rect.width) (hh : 0 < rect.height)
    (hok : (Decoder.decode dec format rect input cb s).2.1 = .ok true) :
    ((Decoder.decode dec format rect input cb s).2.2).map Prod.fst = tileGridSpec rect := by
  rcases hdec : dec.decompressor with _ | d
  · unfold Decoder.decode at hok
    rw [hdec] at hok
    simp at hok
  · unfold Decoder.decode at hok ⊢
    rw [hdec] at hok ⊢
    simp only [] at hok ⊢
    rcases hrun : decodeTilesFrom cb (cpixelParams format).2 (cpixelParams format).1
        (format.bitsPerPixel / 8) rect 0 (BitReader.new ⟨d, input⟩) [] s with
      ⟨r, trace, s'⟩ | ⟨trace, s'⟩ | ⟨e, trace, s'⟩ | ⟨trace, s'⟩
    · simp only [] at hok ⊢
      have htr := decodeTilesFrom_done_trace (rect.height - 0) (le_refl _) hrun
      have htg : trace.map Prod.fst = tileGridSpec rect := by
        rw [htr]
        simp [gridTilesFrom_zero_eq_spec]
      split
      · split <;> (simp only []; exact htg)
      · simp only []; exact htg
      · simp only []; exact htg
    · rw [hrun] at hok
      have hok' : Res.ok false = Res.ok true := hok
      simp at hok'
    · rw [hrun] at hok
      have hok' : Res.err e = Res.ok true := hok
      cases hok'
    · rw [hrun] at hok
      have hok' : (Res.panicked : Res Bool) = Res.ok true := hok
      cases hok' 

/-- Claim C3: when `Decoder::decode` processes the rect to completion
(the tile loops reach their end with final reader `r`), it fails with
`Unexpected("leftover ZRLE byte data")` iff the per-message input slice was
not fully consumed, fails with `Unexpected("leftover ZRLE bit data")` iff the
bit reader holds a partially consumed byte (`position ≠ 8` — which the
invariant proved here shows cannot happen at completion), and on `Ok(true)`
both residues are empty. -/
theorem c3_main {σ : Type} (cb : σ → Rect → List Nat → Res (Bool × σ)) (s : σ)
    (d : Decompress) (format : PixelFormat) (rect : Rect) (input : List Nat)
    (r : BitReader) (trace : List (Rect × List Nat)) (s' : σ)
    (hrun : decodeTilesFrom cb (cpixelParams format).2 (cpixelParams format).1
        (format.bitsPerPixel / 8) rect 0 (BitReader.new ⟨d, input⟩) [] s
      = .done r trace s') :
    ((Decoder.decode ⟨some d⟩ format rect input cb s).2.1
        = .err (.unexpected "leftover ZRLE byte data") ↔ r.reader.input ≠ [])
    ∧ ((Decoder.decode ⟨some d⟩ format rect input cb s).2.1
        = .err (.unexpected "leftover ZRLE bit data") ↔ r.position ≠ 8)
    ∧ ((Decoder.decode ⟨some d⟩ format rect input cb s).2.1 = .ok true
        → r.reader.input = [] ∧ r.position = 8) := by
  have hpos : r.position = 8 :=
    decodeTilesFrom_done_position (rect.height - 0) (le_refl _) rfl hrun
  have hout : (Decoder.decode ⟨some d⟩ format rect input cb s).2.1
      = (if r.reader.input.length = 0 then Res.ok true
         else Res.err (.unexpected "leftover ZRLE byte data")) := by
    unfold Decoder.decode
    simp only []
    rw [hrun]
    simp only []
    unfold BitReader.intoInner
    rw [if_pos hpos]
    simp only []
    unfold ZlibReader.intoInner
    split
    · rename_i d' heq
      split at heq
      · rename_i hlen
        rw [if_pos hlen]
      · cases heq
    · rename_i e1 heq
      split at heq
      · cases heq
      · rename_i hlen
        cases heq
        rw [if_neg hlen]
    · rename_i heq
      split at heq <;> cases heq
  rw [hout]
  by_cases hin : r.reader.input.length = 0
  · rw [if_pos hin]
    have hinput : r.reader.input = [] := List.length_eq_zero.mp hin
    refine ⟨?_, ?_, ?_⟩
    · constructor
      · intro hcon; cases hcon
      · intro hne; exact absurd hinput hne
    · constructor
      · intro hcon; cases hcon
      · intro hne; exact absurd hpos hne
    · intro _; exact ⟨hinput, hpos⟩
  · rw [if_neg hin]
    refine ⟨?_, ?_, ?_⟩
    · constructor
      · intro _ hemp
        rw [hemp] at hin
        simp at hin
      · intro _; rfl
    · constructor
      · intro hcon; exact absurd hcon (by decide)
      · intro hne; exact absurd hpos hne
    · intro hcon; cases hcon

/-- Claim C2, amended: the inflate context taken out of the slot at entry is
put back only on the full-success `Ok(true)` path; on every `Err` path and on
the early `Ok(false)` path the slot stays empty, and a subsequent `decode`
call panics on `self.decompressor.take().unwrap()` instead of observing a
restored context. -/
theorem c2_main {σ : Type} (cb : σ → Rect → List Nat → Res (Bool × σ)) (s : σ)
    (d : Decompress) (format : PixelFormat) (rect : Rect) (input : List Nat) :
    (((Decoder.decode ⟨some d⟩ format rect input cb s).1).decompressor.isSome
      ↔ (Decoder.decode ⟨some d⟩ format rect input cb s).2.1 = .ok true)
    ∧ Decoder.decode (⟨none⟩ : Decoder) format rect input cb s = (⟨none⟩, .panicked, []) := by
  constructor
  · unfold Decoder.decode
    simp only []
    split
    · split
      · split <;> simp
      · simp
      · simp
    · simp
    · simp
    · simp
  · rfl

/-- Claim C7 counterexample: an 8-bit read from a freshly started byte
(`position = 0`, so `position + count ≤ 8` holds) does not return the top 8
unconsumed bits of the byte.  The `u8` mask `(1u8 << 8) - 1` overflows its
shift — masked to `1 << 0` in a release build, giving mask `0` — so
`read_bits 8` on buffer `0xFF` returns `0`, while the top 8 unconsumed bits
are `0xFF` (a debug build panics at the same spot; under neither semantics
are the bits returned). -/
theorem c7_counterexample :
    BitReader.readBits 8 ⟨⟨.mk, []⟩, 0xFF, 0⟩ = .ok (0, ⟨⟨.mk, []⟩, 0xFF, 8⟩)
    ∧ (((⟨⟨.mk, []⟩, 0xFF, 0⟩ : BitReader).buffer / 2 ^ (8 - 0 - 8)) % 2 ^ 8 = 0xFF)
    ∧ (0 : Nat) ≠ 0xFF := by
  refine ⟨?_, by decide, by decide⟩
  simp +decide [BitReader.readBits]

/-- Claim C7, amended: in a packed-palette tile the reader is realigned to a
byte boundary at the end of every pixel row (each row step of `packedRows`
ends in `align`, whose result has `position = 8`); for every request of
`k ≤ 7` bits within the current byte, `read_bits k` returns the top `k`
unconsumed bits MSB-first (`(buffer / 2 ^ (8 - position - k)) % 2 ^ k`); a
request of 8 bits from a freshly started byte is mis-masked by the `u8`
overflow of `(1 << 8) - 1` and returns 0 (release semantics; a debug build
panics); and a request straddling the current byte boundary fails with the
`InvalidData` error `"unaligned ZRLE bit read"`.  The decoder itself only
requests 1, 2, 4 or 7 bits, inside the exact regime. -/
theorem c7_main :
    (∀ (bpi : Nat) (palette : List (List Nat)) (bpp w hRows : Nat) (r r' : BitReader)
        (acc acc' : List Nat),
      packedRow bpi palette bpp w r acc = .ok (acc', r') →
      packedRows bpi palette bpp w (hRows + 1) r acc
          = packedRows bpi palette bpp w hRows (BitReader.align r') acc'
        ∧ (BitReader.align r').position = 8)
    ∧ (∀ (r : BitReader) (count : Nat), 0 < count → count ≤ 7 → r.position < 8 →
        r.position + count ≤ 8 →
        BitReader.readBits count r
          = .ok ((r.buffer / 2 ^ (8 - r.position - count)) % 2 ^ count,
                 ⟨r.reader, r.buffer, r.position + count⟩))
    ∧ (∀ (r : BitReader) (count : Nat), 0 < r.position → r.position < 8 →
        8 < r.position + count → count ≤ 8 →
        BitReader.readBits count r = .err (.ioError "unaligned ZRLE bit read"))
    ∧ (∀ (r : BitReader), r.position = 0 →
        BitReader.readBits 8 r = .ok (0, ⟨r.reader, r.buffer, 8⟩)) := by
  refine ⟨?_, ?_, ?_, ?_⟩
  · intro bpi palette bpp w hRows r r' acc acc' hrow
    constructor
    · simp only [packedRows, hrow]
    · rfl
  · intro r count hc hc7 hlt hle
    unfold BitReader.readBits
    rw [if_pos ⟨hc, by omega⟩, if_neg (by omega : ¬r.position = 8)]
    simp only []
    rw [if_pos hle]
    have h0 : count % 8 = count := Nat.mod_eq_of_lt (by omega)
    have h1 : (1 : Nat) <<< count = 2 ^ count := Nat.one_shiftLeft count
    have h2 : 8 - (count + r.position) = 8 - r.position - count := by omega
    rw [h0, h1, h2, Nat.and_pow_two_sub_one_eq_mod, Nat.shiftRight_eq_div_pow]
  · intro r count h0 hlt h8 hc8
    unfold BitReader.readBits
    rw [if_pos ⟨by omega, hc8⟩, if_neg (by omega : ¬r.position = 8)]
    simp only []
    rw [if_neg (by omega)]
  · intro r hp0
    unfold BitReader.readBits
    rw [if_pos (by omega : (0 : Nat) < 8 ∧ (8 : Nat) ≤ 8),
        if_neg (by omega : ¬r.position = 8)]
    simp only []
    rw [if_pos (by omega), hp0]
    simp

/-- Claim C10: with QEMU quirk mode enabled, the client host calls
`set_encodings` with exactly `[Zrle, DesktopSize]` in that order, and
mouse-motion events produce no `send_pointer_event` call (nor do wheel
events without a ±1 pulse); pointer events arise only from button
transitions and wheel pulses. -/
theorem c10_main :
    clientSetEncodingsList true = [Encoding.zrle, Encoding.desktopSize]
    ∧ (∀ (st : MouseState) (x y : Nat), (handleMouseEvent true st (.motion x y)).2 = [])
    ∧ (∀ (st : MouseState) (dy : Int), dy ≠ 1 → dy ≠ -1 →
        (handleMouseEvent true st (.wheel dy)).2 = []) := by
  refine ⟨rfl, fun st x y => rfl, fun st dy h1 h2 => ?_⟩
  unfold handleMouseEvent
  simp only []
  rw [if_neg h1, if_neg h2]

/-- Claim C6: for a 1×1 rect in 32bpp RGB888 little-endian, the inflated
stream `[0x01, 0xAA, 0xBB, 0xCC]` (fill tile, 3-byte cpixel) makes
`Decoder::decode` invoke the callback exactly once, with tile rect
`(left 0, top 0, width 1, height 1)` and pixel bytes
`[0xAA, 0xBB, 0xCC, 0x00]`, and succeed. -/
theorem c6_main :
    Decoder.decode ⟨some .mk⟩ rgb888LE rect1x1 [0x01, 0xAA, 0xBB, 0xCC] cbTrue ()
      = (⟨some .mk⟩, .ok true, [(⟨0, 0, 1, 1⟩, [0xAA, 0xBB, 0xCC, 0x00])]) := by
  simp +decide [Decoder.decode, decodeTilesFrom, decodeTilesRow, decodeTile, rgb888LE, rect1x1,
    cpixelParams, pixelMask, BitReader.new, BitReader.readBit, BitReader.readBits,
    BitReader.readExact, BitReader.intoInner, ZlibReader.intoInner, readPalette, readPixel,
    tileDispatch, paletteRun, extendSlice, cbTrue]

/-- Claim C1 (evidence of the code bug): on the pad-low cpixel path
(`pixel_mask & 0x000000FF = 0` with `bits_per_pixel = 32`, true colour,
`depth ≤ 24`, little-endian) the source selects `(compressed_bpp, pad_pixel)
= (3, true)`, and `read_pixel` then fills `entry[1..3]` — two wire bytes,
not the three the claim (and the ZRLE wire format) prescribe.  Concretely,
decoding the stream `[0x01, 0xAA, 0xBB, 0xCC]` for a 1×1 fill tile yields the
pixel `[0x00, 0xAA, 0xBB, 0x00]` (the third wire byte `0xCC` is never read)
and the decode then fails with leftover byte data, instead of the claimed
3-byte read producing `[0x00, 0xAA, 0xBB, 0xCC]`. -/
theorem c1_main :
    cpixelParams padLow32LE = (3, true)
    ∧ readPixel true 3 ⟨⟨.mk, [0xAA, 0xBB, 0xCC]⟩, 0, 8⟩
        = .ok ([0, 0xAA, 0xBB, 0], ⟨⟨.mk, [0xCC]⟩, 0, 8⟩)
    ∧ Decoder.decode ⟨some .mk⟩ padLow32LE rect1x1 [0x01, 0xAA, 0xBB, 0xCC] cbTrue ()
        = (⟨none⟩, .err (.unexpected "leftover ZRLE byte data"),
           [(rect1x1, [0, 0xAA, 0xBB, 0])]) := by
  refine ⟨by simp +decide [cpixelParams, pixelMask, padLow32LE],
          by simp +decide [readPixel, BitReader.readExact], ?_⟩
  simp +decide [Decoder.decode, decodeTilesFrom, decodeTilesRow, decodeTile, padLow32LE,
    rect1x1, cpixelParams, pixelMask, BitReader.new, BitReader.readBit, BitReader.readBits,
    BitReader.readExact, BitReader.intoInner, ZlibReader.intoInner, readPalette, readPixel,
    tileDispatch, paletteRun, extendSlice, cbTrue]

/-- Claim C9: a palette-RLE stream can carry a 7-bit palette index (here 5)
at or above the palette size (here 2), and a packed-palette stream can carry
a `bits_per_index`-bit index (here 3) at or above the palette size (here 3);
`Decoder::decode` never validates the index, and the out-of-range `Vec`
indexing panics — the decode ends in the panic outcome rather than an `Err`
value, so the decoder is not total on such inputs. -/
theorem c9_main :
    Decoder.decode ⟨some .mk⟩ rgb888LE rect1x1 rleOobStream cbTrue ()
        = (⟨none⟩, .panicked, [])
    ∧ Decoder.decode ⟨some .mk⟩ rgb888LE rect1x1 packedOobStream cbTrue ()
        = (⟨none⟩, .panicked, []) := by
  constructor <;>
  simp +decide [Decoder.decode, decodeTilesFrom, decodeTilesRow, decodeTile, rgb888LE,
    rect1x1, rleOobStream, packedOobStream, cpixelParams, pixelMask, BitReader.new,
    BitReader.readBit, BitReader.readBits, BitReader.readExact, BitReader.intoInner,
    ZlibReader.intoInner, readPalette, readPixel, tileDispatch, paletteRun, extendSlice,
    cbTrue, indexedRleLoop, packedRows, packedRow, readRunLength, runLengthParts]

/-- Claim C2 counterexample: decoding a 1×1 rect from an empty input errs
with `UnexpectedEof` (an `Err` path), and the decoder's slot is left empty —
the claim's assertion that every error path puts the context back is false at
this input. -/
theorem c2_counterexample :
    (Decoder.decode ⟨some .mk⟩ rgb888LE rect1x1 [] cbTrue ()).2.1
        = .err (.ioError "UnexpectedEof")
    ∧ (Decoder.decode ⟨some .mk⟩ rgb888LE rect1x1 [] cbTrue ()).1.decompressor = none := by
  constructor <;>
  simp +decide [Decoder.decode, decodeTilesFrom, decodeTilesRow, decodeTile, rgb888LE,
    rect1x1, cpixelParams, pixelMask, BitReader.new, BitReader.readBit, BitReader.readBits,
    BitReader.readExact, BitReader.intoInner, ZlibReader.intoInner, readPalette, readPixel,
    tileDispatch, paletteRun, extendSlice, cbTrue]

/-- Witness for claim C3 at a concrete completed run with one leftover
byte. -/
theorem c3_witness :
    decodeTilesFrom cbTrue (cpixelParams padLow32LE).2 (cpixelParams padLow32LE).1
        (padLow32LE.bitsPerPixel / 8) rect1x1 0
        (BitReader.new ⟨.mk, [0x01, 0xAA, 0xBB, 0xCC]⟩) [] ()
      = .done ⟨⟨.mk, [0xCC]⟩, 1, 8⟩ [(rect1x1, [0, 0xAA, 0xBB, 0])] ()
    ∧ (((Decoder.decode ⟨some .mk⟩ padLow32LE rect1x1 [0x01, 0xAA, 0xBB, 0xCC] cbTrue ()).2.1
          = .err (.unexpected "leftover ZRLE byte data")
        ↔ (⟨⟨.mk, [0xCC]⟩, 1, 8⟩ : BitReader).reader.input ≠ [])
      ∧ ((Decoder.decode ⟨some .mk⟩ padLow32LE rect1x1 [0x01, 0xAA, 0xBB, 0xCC] cbTrue ()).2.1
          = .err (.unexpected "leftover ZRLE bit data")
        ↔ (⟨⟨.mk, [0xCC]⟩, 1, 8⟩ : BitReader).position ≠ 8)
      ∧ ((Decoder.decode ⟨some .mk⟩ padLow32LE rect1x1 [0x01, 0xAA, 0xBB, 0xCC] cbTrue ()).2.1
          = .ok true
        → (⟨⟨.mk, [0xCC]⟩, 1, 8⟩ : BitReader).reader.input = []
          ∧ (⟨⟨.mk, [0xCC]⟩, 1, 8⟩ : BitReader).position = 8)) := by
  have hrun : decodeTilesFrom cbTrue (cpixelParams padLow32LE).2 (cpixelParams padLow32LE).1
      (padLow32LE.bitsPerPixel / 8) rect1x1 0
      (BitReader.new ⟨.mk, [0x01, 0xAA, 0xBB, 0xCC]⟩) [] ()
      = .done ⟨⟨.mk, [0xCC]⟩, 1, 8⟩ [(rect1x1, [0, 0xAA, 0xBB, 0])] () := by
    simp +decide [decodeTilesFrom, decodeTilesRow, decodeTile, padLow32LE, rect1x1,
      cpixelParams, pixelMask, BitReader.new, BitReader.readBit, BitReader.readBits,
      BitReader.readExact, readPalette, readPixel, tileDispatch, paletteRun, extendSlice,
      cbTrue]
  exact ⟨hrun, c3_main cbTrue () .mk padLow32LE rect1x1 [0x01, 0xAA, 0xBB, 0xCC]
    ⟨⟨.mk, [0xCC]⟩, 1, 8⟩ [(rect1x1, [0, 0xAA, 0xBB, 0])] () hrun⟩

/-- Witness for claim C5 at `(rle = false, palette_size = 17)`. -/
theorem c5_witness :
    (17 : Nat) ≤ 127
    ∧ (tileDispatch false 3 4 false 17 [] 1 1 ⟨⟨.mk, []⟩, 0, 8⟩
          = .err (.unexpected "ZRLE subencoding")
        ↔ ((false = false ∧ 17 ≤ 17 ∧ 17 ≤ 127) ∨ (false = true ∧ 17 = 1))) :=
  ⟨by decide, c5_main (by decide)⟩

/-- Witness for claim C7: a zero-width row step, a 4-bit read at position 0
of buffer `0xB0` (yielding 11), a straddling 6-bit read at position 5, and
the mis-masked 8-bit read at position 0 (yielding 0). -/
theorem c7_witness :
    (packedRow 1 [] 4 0 (⟨⟨.mk, []⟩, 0, 8⟩ : BitReader) [] = .ok ([], ⟨⟨.mk, []⟩, 0, 8⟩)
      ∧ (packedRows 1 [] 4 0 (0 + 1) (⟨⟨.mk, []⟩, 0, 8⟩ : BitReader) []
            = packedRows 1 [] 4 0 0 (BitReader.align ⟨⟨.mk, []⟩, 0, 8⟩) []
          ∧ (BitReader.align (⟨⟨.mk, []⟩, 0, 8⟩ : BitReader)).position = 8))
    ∧ ((0 : Nat) < 4 ∧ (4 : Nat) ≤ 7 ∧ (⟨⟨.mk, []⟩, 0xB0, 0⟩ : BitReader).position < 8
        ∧ (⟨⟨.mk, []⟩, 0xB0, 0⟩ : BitReader).position + 4 ≤ 8
        ∧ BitReader.readBits 4 ⟨⟨.mk, []⟩, 0xB0, 0⟩
            = .ok (((⟨⟨.mk, []⟩, 0xB0, 0⟩ : BitReader).buffer
                      / 2 ^ (8 - (⟨⟨.mk, []⟩, 0xB0, 0⟩ : BitReader).position - 4)) % 2 ^ 4,
                   ⟨(⟨⟨.mk, []⟩, 0xB0, 0⟩ : BitReader).reader,
                    (⟨⟨.mk, []⟩, 0xB0, 0⟩ : BitReader).buffer,
                    (⟨⟨.mk, []⟩, 0xB0, 0⟩ : BitReader).position + 4⟩))
    ∧ ((0 : Nat) < (⟨⟨.mk, []⟩, 0, 5⟩ : BitReader).position
        ∧ (⟨⟨.mk, []⟩, 0, 5⟩ : BitReader).position < 8
        ∧ 8 < (⟨⟨.mk, []⟩, 0, 5⟩ : BitReader).position + 6 ∧ (6 : Nat) ≤ 8
        ∧ BitReader.readBits 6 ⟨⟨.mk, []⟩, 0, 5⟩
            = .err (.ioError "unaligned ZRLE bit read"))
    ∧ ((⟨⟨.mk, []⟩, 0xAB, 0⟩ : BitReader).position = 0
        ∧ BitReader.readBits 8 ⟨⟨.mk, []⟩, 0xAB, 0⟩
            = .ok (0, ⟨(⟨⟨.mk, []⟩, 0xAB, 0⟩ : BitReader).reader,
                       (⟨⟨.mk, []⟩, 0xAB, 0⟩ : BitReader).buffer, 8⟩)) :=
  ⟨⟨rfl, c7_main.1 1 [] 4 0 0 ⟨⟨.mk, []⟩, 0, 8⟩ ⟨⟨.mk, []⟩, 0, 8⟩ [] [] rfl⟩,
   ⟨by decide, by decide, by decide, by decide,
    c7_main.2.1 ⟨⟨.mk, []⟩, 0xB0, 0⟩ 4 (by decide) (by decide) (by decide) (by decide)⟩,
   ⟨by decide, by decide, by decide, by decide,
    c7_main.2.2.1 ⟨⟨.mk, []⟩, 0, 5⟩ 6 (by decide) (by decide) (by decide) (by decide)⟩,
   ⟨rfl, c7_main.2.2.2 ⟨⟨.mk, []⟩, 0xAB, 0⟩ rfl⟩⟩

/-- Witness for claim C10's hypothesis-bearing wheel conjunct at
`dy = 5`. -/
theorem c10_witness :
    ((5 : Int) ≠ 1) ∧ ((5 : Int) ≠ -1)
    ∧ (handleMouseEvent true ⟨0, 0, 0⟩ (.wheel 5)).2 = [] :=
  ⟨by decide, by decide, c10_main.2.2 ⟨0, 0, 0⟩ 5 (by decide) (by decide)⟩

/-- Witness for claim C8 at the concrete 1×1 solid-fill run. -/
theorem c8_witness :
    0 < rect1x1.width ∧ 0 < rect1x1.height
    ∧ (Decoder.decode ⟨some .mk⟩ rgb888LE rect1x1 [0x01, 0xAA, 0xBB, 0xCC] cbTrue ()).2.1
        = .ok true
    ∧ ((Decoder.decode ⟨some .mk⟩ rgb888LE rect1x1 [0x01, 0xAA, 0xBB, 0xCC]
          cbTrue ()).2.2).map Prod.fst = tileGridSpec rect1x1 := by
  have hok : (Decoder.decode ⟨some .mk⟩ rgb888LE rect1x1 [0x01, 0xAA, 0xBB, 0xCC]
      cbTrue ()).2.1 = .ok true := by
    simp +decide [Decoder.decode, decodeTilesFrom, decodeTilesRow, decodeTile, rgb888LE,
      rect1x1, cpixelParams, pixelMask, BitReader.new, BitReader.readBit, BitReader.readBits,
      BitReader.readExact, BitReader.intoInner, ZlibReader.intoInner, readPalette, readPixel,
      tileDispatch, paletteRun, extendSlice, cbTrue]
  exact ⟨by decide, by decide, hok,
    c8_main cbTrue () ⟨some .mk⟩ rgb888LE rect1x1 [0x01, 0xAA, 0xBB, 0xCC]
      (by decide) (by decide) hok⟩

end Vnc
